import Mathlib

/-!
Verification of the parameter-encoding subsystem of taopq
(src/include/tao/pq/parameter_traits.hpp).

Host values are modelled by a closed universe of encodable types (the
types for which parameter_traits is specialized); an Encoding mirrors the
parameter_traits object for one value: a column count and the three
index-parameterized observers c_str / size / format.  Machine integers are
modelled as Nat/Int with explicit reduction modulo 2^w; the bytes a
c_str pointer points at are modelled as List Nat (one Nat per byte,
each < 256).  The numeric text formatter internal::printf is an external
collaborator for the extended-precision float pattern and is passed in as
a function parameter; for the fixed integer patterns it is decimal text.
-/

namespace TaoPq

/-- The bytes of a text (null-terminated) string, one Nat per char. -/
def strBytes (s : String) : List Nat := s.toList.map Char.toNat

/-- Byte j (little-endian position) of the natural number x. -/
def byteAt (j x : Nat) : Nat := x / 256 ^ j % 256

/-- bswap_16 from byteswap.h: unconditionally reverse the 2 bytes. -/
def bswap16 (x : Nat) : Nat := x % 256 * 256 + x / 256 % 256

/-- bswap_32 from byteswap.h: unconditionally reverse the 4 bytes. -/
def bswap32 (x : Nat) : Nat :=
  x % 256 * 16777216 + x / 256 % 256 * 65536 + x / 65536 % 256 * 256 + x / 16777216 % 256

/-- bswap_64 from byteswap.h: unconditionally reverse the 8 bytes. -/
def bswap64 (x : Nat) : Nat :=
  x % 256 * 72057594037927936 + x / 256 % 256 * 281474976710656 +
  x / 65536 % 256 * 1099511627776 + x / 16777216 % 256 * 4294967296 +
  x / 4294967296 % 256 * 16777216 + x / 1099511627776 % 256 * 65536 +
  x / 281474976710656 % 256 * 256 + x / 72057594037927936 % 256

/-- The w-bit two's-complement bit pattern of a signed machine integer. -/
def toU (w : Nat) (v : Int) : Nat := (v % ((2 : Int) ^ w)).toNat

/-- Reading a w-bit pattern as a signed machine integer (bit_cast to the
signed type of width w). -/
def toI (w : Nat) (x : Nat) : Int :=
  if x < 2 ^ (w - 1) then (x : Int) else (x : Int) - (2 : Int) ^ w

/-- The n bytes of x as laid out in memory on the little-endian host:
what a const char* cast of the stored integer points at. -/
def leBytes (n x : Nat) : List Nat := (List.range n).map (fun j => byteAt j x)

/-- The n bytes of x in network (big-endian) order. -/
def beBytes (n x : Nat) : List Nat := (List.range n).map (fun j => byteAt (n - 1 - j) x)

theorem toU_lt (w : Nat) (v : Int) : toU w v < 2 ^ w := by
  unfold toU
  have h2 : ((2 : Int) ^ w) = ((2 ^ w : Nat) : Int) := by push_cast; ring
  rw [h2]
  have hpos : (0 : Int) < ((2 ^ w : Nat) : Int) := by positivity
  have h1 := Int.emod_nonneg v (ne_of_gt hpos)
  have h3 := Int.emod_lt_of_pos v hpos
  omega

theorem toU_toI (w : Nat) (x : Nat) (hx : x < 2 ^ w) : toU w (toI w x) = x := by
  unfold toU toI
  have h2 : ((2 : Int) ^ w) = ((2 ^ w : Nat) : Int) := by push_cast; ring
  have hxi : (x : Int) < (2 : Int) ^ w := by rw [h2]; exact_mod_cast hx
  split
  · rw [Int.emod_eq_of_lt (by positivity) hxi]
    simp
  · have hsub : ((x : Int) - (2 : Int) ^ w) = (x : Int) + ((2 : Int) ^ w) * (-1) := by ring
    rw [hsub, Int.add_mul_emod_self_left, Int.emod_eq_of_lt (by positivity) hxi]
    simp

theorem bswap16_eq (b0 b1 : Nat) (h0 : b0 < 256) (h1 : b1 < 256) :
    bswap16 (b0 + 256 * b1) = b1 + 256 * b0 := by
  unfold bswap16
  omega

theorem bswap32_eq (b0 b1 b2 b3 : Nat) (h0 : b0 < 256) (h1 : b1 < 256) (h2 : b2 < 256)
    (h3 : b3 < 256) :
    bswap32 (b0 + 256 * b1 + 65536 * b2 + 16777216 * b3)
      = b3 + 256 * b2 + 65536 * b1 + 16777216 * b0 := by
  unfold bswap32
  omega

theorem bswap64_eq (b0 b1 b2 b3 b4 b5 b6 b7 : Nat) (h0 : b0 < 256) (h1 : b1 < 256)
    (h2 : b2 < 256) (h3 : b3 < 256) (h4 : b4 < 256) (h5 : b5 < 256) (h6 : b6 < 256)
    (h7 : b7 < 256) :
    bswap64 (b0 + 256 * b1 + 65536 * b2 + 16777216 * b3 + 4294967296 * b4 +
        1099511627776 * b5 + 281474976710656 * b6 + 72057594037927936 * b7)
      = b7 + 256 * b6 + 65536 * b5 + 16777216 * b4 + 4294967296 * b3 +
        1099511627776 * b2 + 281474976710656 * b1 + 72057594037927936 * b0 := by
  unfold bswap64
  omega

theorem bswap16_invol (x : Nat) (hx : x < 65536) : bswap16 (bswap16 x) = x := by
  have h : x = x % 256 + 256 * (x / 256) := by omega
  have h0 : x % 256 < 256 := by omega
  have h1 : x / 256 < 256 := by omega
  calc bswap16 (bswap16 x) = bswap16 (bswap16 (x % 256 + 256 * (x / 256))) := by rw [← h]
    _ = bswap16 (x / 256 + 256 * (x % 256)) := by rw [bswap16_eq _ _ h0 h1]
    _ = x % 256 + 256 * (x / 256) := bswap16_eq _ _ h1 h0
    _ = x := h.symm

theorem bswap32_invol (x : Nat) (hx : x < 4294967296) : bswap32 (bswap32 x) = x := by
  have h : x = x % 256 + 256 * (x / 256 % 256) + 65536 * (x / 65536 % 256)
      + 16777216 * (x / 16777216) := by omega
  have h0 : x % 256 < 256 := by omega
  have h1 : x / 256 % 256 < 256 := by omega
  have h2 : x / 65536 % 256 < 256 := by omega
  have h3 : x / 16777216 < 256 := by omega
  calc bswap32 (bswap32 x)
      = bswap32 (bswap32 (x % 256 + 256 * (x / 256 % 256) + 65536 * (x / 65536 % 256)
          + 16777216 * (x / 16777216))) := by rw [← h]
    _ = bswap32 (x / 16777216 + 256 * (x / 65536 % 256) + 65536 * (x / 256 % 256)
          + 16777216 * (x % 256)) := by rw [bswap32_eq _ _ _ _ h0 h1 h2 h3]
    _ = x % 256 + 256 * (x / 256 % 256) + 65536 * (x / 65536 % 256)
          + 16777216 * (x / 16777216) := bswap32_eq _ _ _ _ h3 h2 h1 h0
    _ = x := h.symm

theorem bswap64_invol (x : Nat) (hx : x < 18446744073709551616) :
    bswap64 (bswap64 x) = x := by
  have h : x = x % 256 + 256 * (x / 256 % 256) + 65536 * (x / 65536 % 256)
      + 16777216 * (x / 16777216 % 256) + 4294967296 * (x / 4294967296 % 256)
      + 1099511627776 * (x / 1099511627776 % 256)
      + 281474976710656 * (x / 281474976710656 % 256)
      + 72057594037927936 * (x / 72057594037927936) := by omega
  have h0 : x % 256 < 256 := by omega
  have h1 : x / 256 % 256 < 256 := by omega
  have h2 : x / 65536 % 256 < 256 := by omega
  have h3 : x / 16777216 % 256 < 256 := by omega
  have h4 : x / 4294967296 % 256 < 256 := by omega
  have h5 : x / 1099511627776 % 256 < 256 := by omega
  have h6 : x / 281474976710656 % 256 < 256 := by omega
  have h7 : x / 72057594037927936 < 256 := by omega
  calc bswap64 (bswap64 x)
      = bswap64 (bswap64 (x % 256 + 256 * (x / 256 % 256) + 65536 * (x / 65536 % 256)
          + 16777216 * (x / 16777216 % 256) + 4294967296 * (x / 4294967296 % 256)
          + 1099511627776 * (x / 1099511627776 % 256)
          + 281474976710656 * (x / 281474976710656 % 256)
          + 72057594037927936 * (x / 72057594037927936))) := by rw [← h]
    _ = bswap64 (x / 72057594037927936 + 256 * (x / 281474976710656 % 256)
          + 65536 * (x / 1099511627776 % 256) + 16777216 * (x / 4294967296 % 256)
          + 4294967296 * (x / 16777216 % 256) + 1099511627776 * (x / 65536 % 256)
          + 281474976710656 * (x / 256 % 256) + 72057594037927936 * (x % 256)) := by
            rw [bswap64_eq _ _ _ _ _ _ _ _ h0 h1 h2 h3 h4 h5 h6 h7]
    _ = x % 256 + 256 * (x / 256 % 256) + 65536 * (x / 65536 % 256)
          + 16777216 * (x / 16777216 % 256) + 4294967296 * (x / 4294967296 % 256)
          + 1099511627776 * (x / 1099511627776 % 256)
          + 281474976710656 * (x / 281474976710656 % 256)
          + 72057594037927936 * (x / 72057594037927936) :=
            bswap64_eq _ _ _ _ _ _ _ _ h7 h6 h5 h4 h3 h2 h1 h0
    _ = x := h.symm

theorem byteAt_decomp (j low b high K : Nat) (hK : 256 ^ j = K) (hlow : low < K)
    (hb : b < 256) : byteAt j (low + K * (b + 256 * high)) = b := by
  subst hK
  unfold byteAt
  rw [Nat.add_mul_div_left _ _ (by positivity), Nat.div_eq_of_lt hlow, Nat.zero_add,
      Nat.add_mul_mod_self_left, Nat.mod_eq_of_lt hb]

theorem byteAt0_2 (b0 b1 : Nat) (h0 : b0 < 256) : byteAt 0 (b0 + 256 * b1) = b0 := by
  have h : b0 + 256 * b1 = 0 + 1 * (b0 + 256 * b1) := by ring
  rw [h]; exact byteAt_decomp 0 _ _ _ 1 (by norm_num) (by omega) h0

theorem byteAt1_2 (b0 b1 : Nat) (h0 : b0 < 256) (h1 : b1 < 256) :
    byteAt 1 (b0 + 256 * b1) = b1 := by
  have h : b0 + 256 * b1 = b0 + 256 * (b1 + 256 * 0) := by ring
  rw [h]; exact byteAt_decomp 1 _ _ _ 256 (by norm_num) h0 h1

theorem byteAt0_4 (b0 b1 b2 b3 : Nat) (h0 : b0 < 256) :
    byteAt 0 (b0 + 256 * b1 + 65536 * b2 + 16777216 * b3) = b0 := by
  have h : b0 + 256 * b1 + 65536 * b2 + 16777216 * b3
      = 0 + 1 * (b0 + 256 * (b1 + 256 * b2 + 65536 * b3)) := by ring
  rw [h]; exact byteAt_decomp 0 _ _ _ 1 (by norm_num) (by omega) h0

theorem byteAt1_4 (b0 b1 b2 b3 : Nat) (h0 : b0 < 256) (h1 : b1 < 256) :
    byteAt 1 (b0 + 256 * b1 + 65536 * b2 + 16777216 * b3) = b1 := by
  have h : b0 + 256 * b1 + 65536 * b2 + 16777216 * b3
      = b0 + 256 * (b1 + 256 * (b2 + 256 * b3)) := by ring
  rw [h]; exact byteAt_decomp 1 _ _ _ 256 (by norm_num) h0 h1

theorem byteAt2_4 (b0 b1 b2 b3 : Nat) (h0 : b0 < 256) (h1 : b1 < 256) (h2 : b2 < 256) :
    byteAt 2 (b0 + 256 * b1 + 65536 * b2 + 16777216 * b3) = b2 := by
  have h : b0 + 256 * b1 + 65536 * b2 + 16777216 * b3
      = (b0 + 256 * b1) + 65536 * (b2 + 256 * b3) := by ring
  rw [h]; exact byteAt_decomp 2 _ _ _ 65536 (by norm_num) (by omega) h2

theorem byteAt3_4 (b0 b1 b2 b3 : Nat) (h0 : b0 < 256) (h1 : b1 < 256) (h2 : b2 < 256)
    (h3 : b3 < 256) : byteAt 3 (b0 + 256 * b1 + 65536 * b2 + 16777216 * b3) = b3 := by
  have h : b0 + 256 * b1 + 65536 * b2 + 16777216 * b3
      = (b0 + 256 * b1 + 65536 * b2) + 16777216 * (b3 + 256 * 0) := by ring
  rw [h]; exact byteAt_decomp 3 _ _ _ 16777216 (by norm_num) (by omega) h3

theorem byteAt0_8 (b0 b1 b2 b3 b4 b5 b6 b7 : Nat) (h0 : b0 < 256) :
    byteAt 0 (b0 + 256 * b1 + 65536 * b2 + 16777216 * b3 + 4294967296 * b4 +
      1099511627776 * b5 + 281474976710656 * b6 + 72057594037927936 * b7) = b0 := by
  have h : b0 + 256 * b1 + 65536 * b2 + 16777216 * b3 + 4294967296 * b4 +
        1099511627776 * b5 + 281474976710656 * b6 + 72057594037927936 * b7
      = 0 + 1 * (b0 + 256 * (b1 + 256 * b2 + 65536 * b3 + 16777216 * b4 +
          4294967296 * b5 + 1099511627776 * b6 + 281474976710656 * b7)) := by ring
  rw [h]; exact byteAt_decomp 0 _ _ _ 1 (by norm_num) (by omega) h0

theorem byteAt1_8 (b0 b1 b2 b3 b4 b5 b6 b7 : Nat) (h0 : b0 < 256) (h1 : b1 < 256) :
    byteAt 1 (b0 + 256 * b1 + 65536 * b2 + 16777216 * b3 + 4294967296 * b4 +
      1099511627776 * b5 + 281474976710656 * b6 + 72057594037927936 * b7) = b1 := by
  have h : b0 + 256 * b1 + 65536 * b2 + 16777216 * b3 + 4294967296 * b4 +
        1099511627776 * b5 + 281474976710656 * b6 + 72057594037927936 * b7
      = b0 + 256 * (b1 + 256 * (b2 + 256 * b3 + 65536 * b4 + 16777216 * b5 +
          4294967296 * b6 + 1099511627776 * b7)) := by ring
  rw [h]; exact byteAt_decomp 1 _ _ _ 256 (by norm_num) h0 h1

theorem byteAt2_8 (b0 b1 b2 b3 b4 b5 b6 b7 : Nat) (h0 : b0 < 256) (h1 : b1 < 256)
    (h2 : b2 < 256) :
    byteAt 2 (b0 + 256 * b1 + 65536 * b2 + 16777216 * b3 + 4294967296 * b4 +
      1099511627776 * b5 + 281474976710656 * b6 + 72057594037927936 * b7) = b2 := by
  have h : b0 + 256 * b1 + 65536 * b2 + 16777216 * b3 + 4294967296 * b4 +
        1099511627776 * b5 + 281474976710656 * b6 + 72057594037927936 * b7
      = (b0 + 256 * b1) + 65536 * (b2 + 256 * (b3 + 256 * b4 + 65536 * b5 +
          16777216 * b6 + 4294967296 * b7)) := by ring
  rw [h]; exact byteAt_decomp 2 _ _ _ 65536 (by norm_num) (by omega) h2

theorem byteAt3_8 (b0 b1 b2 b3 b4 b5 b6 b7 : Nat) (h0 : b0 < 256) (h1 : b1 < 256)
    (h2 : b2 < 256) (h3 : b3 < 256) :
    byteAt 3 (b0 + 256 * b1 + 65536 * b2 + 16777216 * b3 + 4294967296 * b4 +
      1099511627776 * b5 + 281474976710656 * b6 + 72057594037927936 * b7) = b3 := by
  have h : b0 + 256 * b1 + 65536 * b2 + 16777216 * b3 + 4294967296 * b4 +
        1099511627776 * b5 + 281474976710656 * b6 + 72057594037927936 * b7
      = (b0 + 256 * b1 + 65536 * b2) + 16777216 * (b3 + 256 * (b4 + 256 * b5 +
          65536 * b6 + 16777216 * b7)) := by ring
  rw [h]; exact byteAt_decomp 3 _ _ _ 16777216 (by norm_num) (by omega) h3

theorem byteAt4_8 (b0 b1 b2 b3 b4 b5 b6 b7 : Nat) (h0 : b0 < 256) (h1 : b1 < 256)
    (h2 : b2 < 256) (h3 : b3 < 256) (h4 : b4 < 256) :
    byteAt 4 (b0 + 256 * b1 + 65536 * b2 + 16777216 * b3 + 4294967296 * b4 +
      1099511627776 * b5 + 281474976710656 * b6 + 72057594037927936 * b7) = b4 := by
  have h : b0 + 256 * b1 + 65536 * b2 + 16777216 * b3 + 4294967296 * b4 +
        1099511627776 * b5 + 281474976710656 * b6 + 72057594037927936 * b7
      = (b0 + 256 * b1 + 65536 * b2 + 16777216 * b3) + 4294967296 * (b4 + 256 * (b5 +
          256 * b6 + 65536 * b7)) := by ring
  rw [h]; exact byteAt_decomp 4 _ _ _ 4294967296 (by norm_num) (by omega) h4

theorem byteAt5_8 (b0 b1 b2 b3 b4 b5 b6 b7 : Nat) (h0 : b0 < 256) (h1 : b1 < 256)
    (h2 : b2 < 256) (h3 : b3 < 256) (h4 : b4 < 256) (h5 : b5 < 256) :
    byteAt 5 (b0 + 256 * b1 + 65536 * b2 + 16777216 * b3 + 4294967296 * b4 +
      1099511627776 * b5 + 281474976710656 * b6 + 72057594037927936 * b7) = b5 := by
  have h : b0 + 256 * b1 + 65536 * b2 + 16777216 * b3 + 4294967296 * b4 +
        1099511627776 * b5 + 281474976710656 * b6 + 72057594037927936 * b7
      = (b0 + 256 * b1 + 65536 * b2 + 16777216 * b3 + 4294967296 * b4) +
          1099511627776 * (b5 + 256 * (b6 + 256 * b7)) := by ring
  rw [h]; exact byteAt_decomp 5 _ _ _ 1099511627776 (by norm_num) (by omega) h5

theorem byteAt6_8 (b0 b1 b2 b3 b4 b5 b6 b7 : Nat) (h0 : b0 < 256) (h1 : b1 < 256)
    (h2 : b2 < 256) (h3 : b3 < 256) (h4 : b4 < 256) (h5 : b5 < 256) (h6 : b6 < 256) :
    byteAt 6 (b0 + 256 * b1 + 65536 * b2 + 16777216 * b3 + 4294967296 * b4 +
      1099511627776 * b5 + 281474976710656 * b6 + 72057594037927936 * b7) = b6 := by
  have h : b0 + 256 * b1 + 65536 * b2 + 16777216 * b3 + 4294967296 * b4 +
        1099511627776 * b5 + 281474976710656 * b6 + 72057594037927936 * b7
      = (b0 + 256 * b1 + 65536 * b2 + 16777216 * b3 + 4294967296 * b4 +
          1099511627776 * b5) + 281474976710656 * (b6 + 256 * b7) := by ring
  rw [h]; exact byteAt_decomp 6 _ _ _ 281474976710656 (by norm_num) (by omega) h6

theorem byteAt7_8 (b0 b1 b2 b3 b4 b5 b6 b7 : Nat) (h0 : b0 < 256) (h1 : b1 < 256)
    (h2 : b2 < 256) (h3 : b3 < 256) (h4 : b4 < 256) (h5 : b5 < 256) (h6 : b6 < 256)
    (h7 : b7 < 256) :
    byteAt 7 (b0 + 256 * b1 + 65536 * b2 + 16777216 * b3 + 4294967296 * b4 +
      1099511627776 * b5 + 281474976710656 * b6 + 72057594037927936 * b7) = b7 := by
  have h : b0 + 256 * b1 + 65536 * b2 + 16777216 * b3 + 4294967296 * b4 +
        1099511627776 * b5 + 281474976710656 * b6 + 72057594037927936 * b7
      = (b0 + 256 * b1 + 65536 * b2 + 16777216 * b3 + 4294967296 * b4 +
          1099511627776 * b5 + 281474976710656 * b6) +
          72057594037927936 * (b7 + 256 * 0) := by ring
  rw [h]; exact byteAt_decomp 7 _ _ _ 72057594037927936 (by norm_num) (by omega) h7

theorem leBytes_bswap16 (x : Nat) (hx : x < 65536) :
    leBytes 2 (bswap16 x) = beBytes 2 x := by
  obtain ⟨b0, b1, h0, h1, hxe⟩ :
      ∃ b0 b1, b0 < 256 ∧ b1 < 256 ∧ x = b0 + 256 * b1 :=
    ⟨x % 256, x / 256, by omega, by omega, by omega⟩
  subst hxe
  show [byteAt 0 (bswap16 (b0 + 256 * b1)), byteAt 1 (bswap16 (b0 + 256 * b1))]
     = [byteAt 1 (b0 + 256 * b1), byteAt 0 (b0 + 256 * b1)]
  rw [bswap16_eq _ _ h0 h1, byteAt0_2 b1 b0 h1, byteAt1_2 b1 b0 h1 h0,
      byteAt1_2 b0 b1 h0 h1, byteAt0_2 b0 b1 h0]

theorem leBytes_bswap32 (x : Nat) (hx : x < 4294967296) :
    leBytes 4 (bswap32 x) = beBytes 4 x := by
  obtain ⟨b0, b1, b2, b3, h0, h1, h2, h3, hxe⟩ :
      ∃ b0 b1 b2 b3, b0 < 256 ∧ b1 < 256 ∧ b2 < 256 ∧ b3 < 256 ∧
        x = b0 + 256 * b1 + 65536 * b2 + 16777216 * b3 :=
    ⟨x % 256, x / 256 % 256, x / 65536 % 256, x / 16777216,
      by omega, by omega, by omega, by omega, by omega⟩
  subst hxe
  show [byteAt 0 (bswap32 _), byteAt 1 (bswap32 _), byteAt 2 (bswap32 _), byteAt 3 (bswap32 _)]
     = [byteAt 3 _, byteAt 2 _, byteAt 1 _, byteAt 0 _]
  rw [bswap32_eq _ _ _ _ h0 h1 h2 h3,
      byteAt0_4 b3 b2 b1 b0 h3, byteAt1_4 b3 b2 b1 b0 h3 h2, byteAt2_4 b3 b2 b1 b0 h3 h2 h1,
      byteAt3_4 b3 b2 b1 b0 h3 h2 h1 h0,
      byteAt3_4 b0 b1 b2 b3 h0 h1 h2 h3, byteAt2_4 b0 b1 b2 b3 h0 h1 h2,
      byteAt1_4 b0 b1 b2 b3 h0 h1, byteAt0_4 b0 b1 b2 b3 h0]

theorem leBytes_bswap64 (x : Nat) (hx : x < 18446744073709551616) :
    leBytes 8 (bswap64 x) = beBytes 8 x := by
  obtain ⟨b0, b1, b2, b3, b4, b5, b6, b7, h0, h1, h2, h3, h4, h5, h6, h7, hxe⟩ :
      ∃ b0 b1 b2 b3 b4 b5 b6 b7, b0 < 256 ∧ b1 < 256 ∧ b2 < 256 ∧ b3 < 256 ∧
        b4 < 256 ∧ b5 < 256 ∧ b6 < 256 ∧ b7 < 256 ∧
        x = b0 + 256 * b1 + 65536 * b2 + 16777216 * b3 + 4294967296 * b4 +
            1099511627776 * b5 + 281474976710656 * b6 + 72057594037927936 * b7 :=
    ⟨x % 256, x / 256 % 256, x / 65536 % 256, x / 16777216 % 256, x / 4294967296 % 256,
      x / 1099511627776 % 256, x / 281474976710656 % 256, x / 72057594037927936,
      by omega, by omega, by omega, by omega, by omega, by omega, by omega, by omega, by omega⟩
  subst hxe
  show [byteAt 0 (bswap64 _), byteAt 1 (bswap64 _), byteAt 2 (bswap64 _), byteAt 3 (bswap64 _),
        byteAt 4 (bswap64 _), byteAt 5 (bswap64 _), byteAt 6 (bswap64 _), byteAt 7 (bswap64 _)]
     = [byteAt 7 _, byteAt 6 _, byteAt 5 _, byteAt 4 _,
        byteAt 3 _, byteAt 2 _, byteAt 1 _, byteAt 0 _]
  rw [bswap64_eq _ _ _ _ _ _ _ _ h0 h1 h2 h3 h4 h5 h6 h7,
      byteAt0_8 b7 b6 b5 b4 b3 b2 b1 b0 h7,
      byteAt1_8 b7 b6 b5 b4 b3 b2 b1 b0 h7 h6,
      byteAt2_8 b7 b6 b5 b4 b3 b2 b1 b0 h7 h6 h5,
      byteAt3_8 b7 b6 b5 b4 b3 b2 b1 b0 h7 h6 h5 h4,
      byteAt4_8 b7 b6 b5 b4 b3 b2 b1 b0 h7 h6 h5 h4 h3,
      byteAt5_8 b7 b6 b5 b4 b3 b2 b1 b0 h7 h6 h5 h4 h3 h2,
      byteAt6_8 b7 b6 b5 b4 b3 b2 b1 b0 h7 h6 h5 h4 h3 h2 h1,
      byteAt7_8 b7 b6 b5 b4 b3 b2 b1 b0 h7 h6 h5 h4 h3 h2 h1 h0,
      byteAt7_8 b0 b1 b2 b3 b4 b5 b6 b7 h0 h1 h2 h3 h4 h5 h6 h7,
      byteAt6_8 b0 b1 b2 b3 b4 b5 b6 b7 h0 h1 h2 h3 h4 h5 h6,
      byteAt5_8 b0 b1 b2 b3 b4 b5 b6 b7 h0 h1 h2 h3 h4 h5,
      byteAt4_8 b0 b1 b2 b3 b4 b5 b6 b7 h0 h1 h2 h3 h4,
      byteAt3_8 b0 b1 b2 b3 b4 b5 b6 b7 h0 h1 h2 h3,
      byteAt2_8 b0 b1 b2 b3 b4 b5 b6 b7 h0 h1 h2,
      byteAt1_8 b0 b1 b2 b3 b4 b5 b6 b7 h0 h1,
      byteAt0_8 b0 b1 b2 b3 b4 b5 b6 b7 h0]

/-- The closed universe of host types for which parameter_traits has a built-in
specialization: the scalar specializations of parameter_traits.hpp plus the
std::optional and std::tuple combinators. -/
inductive PType : Type where
  | tnull
  | tcstr
  | tstring
  | tbool
  | tchar
  | tschar
  | tuchar
  | tshort
  | tushort
  | tint
  | tuint
  | tlong
  | tulong
  | tlonglong
  | tulonglong
  | tfloat
  | tdouble
  | tlongdouble
  | topt (t : PType)
  | ttuple (ts : List PType)

/-- An extended-precision (long double) value, classified the way
internal::printf_helper observes it: finite values are opaque (identified by a
tag handed to the opaque formatter), the non-finite values are NaN and the two
infinities. -/
inductive LongDouble : Type where
  | finite (k : Nat)
  | nan
  | posInf
  | negInf

/-- A host value of an encodable type. Signed machine integers are carried as
Int, unsigned ones as Nat, float/double as their raw bit pattern, strings as
their byte lists. -/
inductive PValue : Type where
  | vnull
  | vcstr (p : Option (List Nat))
  | vstring (s : List Nat)
  | vbool (b : Bool)
  | vchar (c : Nat)
  | vschar (v : Int)
  | vuchar (v : Nat)
  | vshort (v : Int)
  | vushort (v : Nat)
  | vint (v : Int)
  | vuint (v : Nat)
  | vlong (v : Int)
  | vulong (v : Nat)
  | vlonglong (v : Int)
  | vulonglong (v : Nat)
  | vfloat (bits : Nat)
  | vdouble (bits : Nat)
  | vlongdouble (v : LongDouble)
  | vopt (t : PType) (v : Option PValue)
  | vtuple (vs : List PValue)

mutual

/-- The type of a value (which parameter_traits specialization applies). -/
def PValue.ty : PValue → PType
  | .vnull => .tnull
  | .vcstr _ => .tcstr
  | .vstring _ => .tstring
  | .vbool _ => .tbool
  | .vchar _ => .tchar
  | .vschar _ => .tschar
  | .vuchar _ => .tuchar
  | .vshort _ => .tshort
  | .vushort _ => .tushort
  | .vint _ => .tint
  | .vuint _ => .tuint
  | .vlong _ => .tlong
  | .vulong _ => .tulong
  | .vlonglong _ => .tlonglong
  | .vulonglong _ => .tulonglong
  | .vfloat _ => .tfloat
  | .vdouble _ => .tdouble
  | .vlongdouble _ => .tlongdouble
  | .vopt t _ => .topt t
  | .vtuple vs => .ttuple (tyOfList vs)

/-- Element types of a tuple of values. -/
def tyOfList : List PValue → List PType
  | [] => []
  | v :: vs => PValue.ty v :: tyOfList vs

end

mutual

/-- The static columns member of the parameter_traits specialization for a
type: 1 for every scalar and for std::optional, the pack fold
(0 + ... + columns) for std::tuple. -/
def tyColumns : PType → Nat
  | .topt _ => 1
  | .ttuple ts => tyColumnsList ts
  | _ => 1

/-- The fold (0 + ... + parameter_traits<Ts>::columns) over a pack. -/
def tyColumnsList : List PType → Nat
  | [] => 0
  | t :: ts => tyColumns t + tyColumnsList ts

end

mutual

/-- The static size<I>() member of the parameter_traits specialization for a
type: sizeof for the binary specializations (short/int/long and the
float/double traits inheriting from them), 0 for every text specialization,
delegation for std::optional, prefix-sum routing for std::tuple. -/
def tySize : PType → Nat → Int
  | .tshort, _ => 2
  | .tint, _ => 4
  | .tlong, _ => 8
  | .tfloat, _ => 4
  | .tdouble, _ => 8
  | .topt t, i => tySize t i
  | .ttuple ts, i => tySizeList ts i
  | _, _ => 0

/-- Routing of a global column index to the owning pack element for size:
the walk computes the outer/inner decomposition of internal::gen. -/
def tySizeList : List PType → Nat → Int
  | [], _ => 0
  | t :: ts, i => if i < tyColumns t then tySize t i else tySizeList ts (i - tyColumns t)

end

mutual

/-- The static format<I>() member of the parameter_traits specialization for a
type: 1 for the binary specializations (short/int/long and the float/double
traits inheriting from them), 0 for every text specialization, delegation for
std::optional, prefix-sum routing for std::tuple. -/
def tyFormat : PType → Nat → Int
  | .tshort, _ => 1
  | .tint, _ => 1
  | .tlong, _ => 1
  | .tfloat, _ => 1
  | .tdouble, _ => 1
  | .topt t, i => tyFormat t i
  | .ttuple ts, i => tyFormatList ts i
  | _, _ => 0

/-- Routing of a global column index to the owning pack element for format. -/
def tyFormatList : List PType → Nat → Int
  | [], _ => 0
  | t :: ts, i => if i < tyColumns t then tyFormat t i else tyFormatList ts (i - tyColumns t)

end

/-- A constructed parameter_traits object for one value: the column count and
the three index-parameterized observers. cStr i is the pointer returned by
c_str<i>(): none models a null pointer, some bs a pointer to the bytes bs.
In the C++ source an index outside [0, columns) is rejected by a
static_assert in every observer; the Lean totalization returns the junk
values none / 0 / 0 there. -/
structure Encoding : Type where
  columns : Nat
  cStr : Nat → Option (List Nat)
  size : Nat → Int
  format : Nat → Int

/-- parameter_traits<null_t>: one column, null pointer, size 0, text format. -/
def nullEncoding : Encoding :=
  { columns := 1, cStr := fun _ => none, size := fun _ => 0, format := fun _ => 0 }

/-- internal::char_pointer_helper: one text column aliasing the given pointer. -/
def charPointerHelper (p : Option (List Nat)) : Encoding :=
  { columns := 1, cStr := fun _ => p, size := fun _ => 0, format := fun _ => 0 }

/-- internal::string_helper: one text column owning the given string. -/
def stringHelper (s : List Nat) : Encoding :=
  { columns := 1, cStr := fun _ => some s, size := fun _ => 0, format := fun _ => 0 }

/-- parameter_traits<short>: m_v = bswap_16(v) stored at construction; c_str
points at the 2 stored bytes, size = sizeof(short) = 2, format = 1. -/
def encShort (v : Int) : Encoding :=
  { columns := 1
    cStr := fun _ => some (leBytes 2 (bswap16 (toU 16 v)))
    size := fun _ => 2
    format := fun _ => 1 }

/-- parameter_traits<int>: m_v = bswap_32(v); size = sizeof(int) = 4, format 1. -/
def encInt (v : Int) : Encoding :=
  { columns := 1
    cStr := fun _ => some (leBytes 4 (bswap32 (toU 32 v)))
    size := fun _ => 4
    format := fun _ => 1 }

/-- parameter_traits<long>: m_v = bswap_64(v); size = sizeof(long) = 8, format 1
(the source static_asserts sizeof(long) == 8). -/
def encLong (v : Int) : Encoding :=
  { columns := 1
    cStr := fun _ => some (leBytes 8 (bswap64 (toU 64 v)))
    size := fun _ => 8
    format := fun _ => 1 }

/-- Modelled from the spec: internal::printf (tao/pq/internal/printf.hpp is not
under src) applied to the integer patterns %hhd/%lld (signed decimal) has
printf-style semantics, i.e. produces the decimal text of the value. -/
def decimalText (v : Int) : List Nat := strBytes (toString v)

/-- Modelled from the spec: internal::printf applied to the unsigned integer
patterns %hhu/%hu/%u/%lu/%llu produces the decimal text of the value. -/
def decimalTextN (v : Nat) : List Nat := strBytes (toString v)

/-- internal::printf_helper: finite values go to the opaque formatter pf with
the given pattern; NaN, +Inf and -Inf produce the special texts. -/
def printfHelper (pf : String → Nat → List Nat) (pattern : String) (v : LongDouble) :
    List Nat :=
  match v with
  | .finite k => pf pattern k
  | .nan => strBytes "NAN"
  | .posInf => strBytes "INF"
  | .negInf => strBytes "-INF"

/-- Modelled from the spec: internal::gen (tao/pq/internal/gen.hpp is not under
src) maps a global column index to the (outer, inner) pair of the exact
prefix-sum partition of the pack's column counts: outer is the unique element
whose half-open interval contains the index, inner the offset into it; none
when no element owns the index (the case the static_assert rejects at compile
time). -/
def genRoute : List Nat → Nat → Option (Nat × Nat)
  | [], _ => none
  | c :: cs, i =>
    if i < c then some (0, i)
    else (genRoute cs (i - c)).map (fun p => (p.1 + 1, p.2))

mutual

/-- The Encoding constructed by parameter_traits for a value.  pf is the
opaque numeric text formatter internal::printf as used for long double
(pattern, finite value ↦ text). -/
def encode (pf : String → Nat → List Nat) : PValue → Encoding
  | .vnull => nullEncoding
  | .vcstr p => charPointerHelper p
  | .vstring s => charPointerHelper (some s)
  | .vbool b => charPointerHelper (some (strBytes (if b then "TRUE" else "FALSE")))
  | .vchar c => stringHelper [c]
  | .vschar v => stringHelper (decimalText v)
  | .vuchar v => stringHelper (decimalTextN v)
  | .vshort v => encShort v
  | .vushort v => stringHelper (decimalTextN v)
  | .vint v => encInt v
  | .vuint v => stringHelper (decimalTextN v)
  | .vlong v => encLong v
  | .vulong v => stringHelper (decimalTextN v)
  | .vlonglong v => stringHelper (decimalText v)
  | .vulonglong v => stringHelper (decimalTextN v)
  | .vfloat bits => encInt (toI 32 bits)
  | .vdouble bits => encLong (toI 64 bits)
  | .vlongdouble v => stringHelper (printfHelper pf "%.21Lg" v)
  | .vopt t none =>
      { columns := 1
        cStr := fun _ => none
        size := fun i => tySize t i
        format := fun i => tyFormat t i }
  | .vopt t (some x) =>
      { columns := 1
        cStr := fun i => (encode pf x).cStr i
        size := fun i => tySize t i
        format := fun i => tyFormat t i }
  | .vtuple vs =>
      { columns := tyColumnsList (tyOfList vs)
        cStr := fun i =>
          match genRoute ((encodeList pf vs).map (fun e => e.columns)) i with
          | some p => ((encodeList pf vs).getD p.1 nullEncoding).cStr p.2
          | none => none
        size := fun i => tySizeList (tyOfList vs) i
        format := fun i => tyFormatList (tyOfList vs) i }

/-- The member tuple of parameter_traits objects of a tuple's elements. -/
def encodeList (pf : String → Nat → List Nat) : List PValue → List Encoding
  | [] => []
  | v :: vs => encode pf v :: encodeList pf vs

end

theorem encodeList_eq_map (pf : String → Nat → List Nat) (vs : List PValue) :
    encodeList pf vs = vs.map (encode pf) := by
  induction vs with
  | nil => rfl
  | cons v vs ih => simp [encodeList, ih]

theorem tyOfList_eq_map (vs : List PValue) : tyOfList vs = vs.map PValue.ty := by
  induction vs with
  | nil => rfl
  | cons v vs ih => simp [tyOfList, ih]

theorem tyColumnsList_eq_sum (ts : List PType) :
    tyColumnsList ts = (ts.map tyColumns).sum := by
  induction ts with
  | nil => rfl
  | cons t ts ih => simp [tyColumnsList, ih]

theorem encode_columns (pf : String → Nat → List Nat) (v : PValue) :
    (encode pf v).columns = tyColumns v.ty := by
  cases v with
  | vopt t x => cases x <;> rfl
  | _ => rfl

theorem encode_size (pf : String → Nat → List Nat) (v : PValue) (i : Nat) :
    (encode pf v).size i = tySize v.ty i := by
  cases v with
  | vopt t x => cases x <;> rfl
  | _ => rfl

theorem encode_format (pf : String → Nat → List Nat) (v : PValue) (i : Nat) :
    (encode pf v).format i = tyFormat v.ty i := by
  cases v with
  | vopt t x => cases x <;> rfl
  | _ => rfl

theorem genRoute_none (cs : List Nat) (i : Nat) (h : cs.sum ≤ i) :
    genRoute cs i = none := by
  induction cs generalizing i with
  | nil => rfl
  | cons c cs ih =>
    simp only [List.sum_cons] at h
    simp only [genRoute, if_neg (by omega : ¬ i < c)]
    rw [ih (i - c) (by omega)]
    rfl

theorem genRoute_isSome (cs : List Nat) (i : Nat) (h : i < cs.sum) :
    ∃ o inn, genRoute cs i = some (o, inn) := by
  induction cs generalizing i with
  | nil => simp at h
  | cons c cs ih =>
    by_cases hc : i < c
    · exact ⟨0, i, by simp [genRoute, hc]⟩
    · simp only [List.sum_cons] at h
      obtain ⟨o, inn, ho⟩ := ih (i - c) (by omega)
      exact ⟨o + 1, inn, by simp [genRoute, hc, ho]⟩

theorem genRoute_bounds (cs : List Nat) (i o inn : Nat)
    (h : genRoute cs i = some (o, inn)) :
    o < cs.length ∧ inn < cs.getD o 0 ∧ i = (cs.take o).sum + inn := by
  induction cs generalizing i o inn with
  | nil => simp [genRoute] at h
  | cons c cs ih =>
    by_cases hc : i < c
    · simp only [genRoute, if_pos hc] at h
      obtain ⟨rfl, rfl⟩ : 0 = o ∧ i = inn := by
        constructor <;> [exact congrArg Prod.fst (Option.some.inj h);
          exact congrArg Prod.snd (Option.some.inj h)]
      simp [hc]
    · simp only [genRoute, if_neg hc] at h
      cases hr : genRoute cs (i - c) with
      | none => rw [hr] at h; simp at h
      | some p =>
        rw [hr] at h
        simp only [Option.map_some'] at h
        obtain ⟨h1, h2⟩ : p.1 + 1 = o ∧ p.2 = inn := by
          constructor <;> [exact congrArg Prod.fst (Option.some.inj h);
            exact congrArg Prod.snd (Option.some.inj h)]
        obtain ⟨hb1, hb2, hb3⟩ := ih (i - c) p.1 p.2 (by rw [hr])
        subst h1 h2
        refine ⟨by simpa using hb1, by simpa using hb2, ?_⟩
        simp only [List.take_succ_cons, List.sum_cons]
        omega

theorem genRoute_of_decomp (cs : List Nat) (o inn : Nat) (ho : o < cs.length)
    (hinn : inn < cs.getD o 0) :
    genRoute cs ((cs.take o).sum + inn) = some (o, inn) := by
  induction cs generalizing o with
  | nil => simp at ho
  | cons c cs ih =>
    cases o with
    | zero =>
      simp only [List.take_zero, List.sum_nil, Nat.zero_add]
      simp only [List.getD_cons_zero] at hinn
      simp [genRoute, hinn]
    | succ o =>
      simp only [List.length_cons] at ho
      simp only [List.getD_cons_succ] at hinn
      simp only [List.take_succ_cons, List.sum_cons]
      have hge : ¬ c + (cs.take o).sum + inn < c := by omega
      simp only [genRoute, if_neg hge]
      have : c + (cs.take o).sum + inn - c = (cs.take o).sum + inn := by omega
      rw [this, ih o (by omega) hinn]
      rfl

theorem tySizeList_genRoute (ts : List PType) (i : Nat) :
    tySizeList ts i = match genRoute (ts.map tyColumns) i with
      | some p => tySize (ts.getD p.1 .tnull) p.2
      | none => 0 := by
  induction ts generalizing i with
  | nil => rfl
  | cons t ts ih =>
    by_cases hc : i < tyColumns t
    · simp [tySizeList, hc, genRoute]
    · simp only [tySizeList, if_neg hc, List.map_cons, genRoute, if_neg hc]
      rw [ih (i - tyColumns t)]
      cases genRoute (ts.map tyColumns) (i - tyColumns t) <;> simp

theorem tyFormatList_genRoute (ts : List PType) (i : Nat) :
    tyFormatList ts i = match genRoute (ts.map tyColumns) i with
      | some p => tyFormat (ts.getD p.1 .tnull) p.2
      | none => 0 := by
  induction ts generalizing i with
  | nil => rfl
  | cons t ts ih =>
    by_cases hc : i < tyColumns t
    · simp [tyFormatList, hc, genRoute]
    · simp only [tyFormatList, if_neg hc, List.map_cons, genRoute, if_neg hc]
      rw [ih (i - tyColumns t)]
      cases genRoute (ts.map tyColumns) (i - tyColumns t) <;> simp

theorem encodeList_getD (pf : String → Nat → List Nat) (vs : List PValue) (o : Nat) :
    (encodeList pf vs).getD o nullEncoding = encode pf (vs.getD o .vnull) := by
  induction vs generalizing o with
  | nil => cases o <;> rfl
  | cons v vs ih => cases o with
    | zero => rfl
    | succ o => simpa [encodeList] using ih o

theorem tyOfList_getD (vs : List PValue) (o : Nat) :
    (tyOfList vs).getD o .tnull = (vs.getD o .vnull).ty := by
  induction vs generalizing o with
  | nil => cases o <;> rfl
  | cons v vs ih => cases o with
    | zero => rfl
    | succ o => simpa [tyOfList] using ih o

theorem cols_eq (pf : String → Nat → List Nat) (vs : List PValue) :
    (encodeList pf vs).map (fun e => e.columns) = (tyOfList vs).map tyColumns := by
  induction vs with
  | nil => rfl
  | cons v vs ih => simp [encodeList, tyOfList, encode_columns, ih]

theorem cols_getD (pf : String → Nat → List Nat) (vs : List PValue) (o : Nat)
    (ho : o < vs.length) :
    ((encodeList pf vs).map (fun e => e.columns)).getD o 0
      = (encode pf (vs.getD o .vnull)).columns := by
  induction vs generalizing o with
  | nil => simp at ho
  | cons v vs ih => cases o with
    | zero => rfl
    | succ o => simpa [encodeList] using ih o (by simpa using ho)

/-- sizeof times 8 of each fixed-width scalar specialization on the target
platform: the source static_asserts sizeof(short) == 2, sizeof(int) == 4 and
sizeof(long) == 8, and the char types have sizeof 1 and (unsigned) long long
sizeof 8 on the LP64 platform the header targets. -/
def widthBits : PType → Nat
  | .tschar | .tuchar | .tchar | .tbool => 8
  | .tshort | .tushort => 16
  | .tint | .tuint | .tfloat => 32
  | .tlong | .tulong | .tlonglong | .tulonglong | .tdouble => 64
  | _ => 0

/-- The signed integer types among the scalar specializations. -/
def isSignedIntTy : PType → Bool
  | .tschar | .tshort | .tint | .tlong | .tlonglong => true
  | _ => false

/-- The specializations taking the binary fast path: short, int and long. -/
def binaryTy : PType → Bool
  | .tshort | .tint | .tlong => true
  | _ => false

/-- A concrete formatter instance for closed witness statements. -/
def pf0 : String → Nat → List Nat := fun _ _ => []

/-- C1, counterexample: long long is a signed integer type of width 64 bits on
the target platform, yet parameter_traits<long long> formats it as decimal
text with format 0 instead of the binary fast path the claim requires of
every signed 16/32/64-bit integer type. -/
theorem C1_counterexample :
    isSignedIntTy (PValue.ty (.vlonglong 5)) = true ∧
    widthBits (PValue.ty (.vlonglong 5)) = 64 ∧
    (encode pf0 (.vlonglong 5)).format 0 = 0 ∧
    (encode pf0 (.vlonglong 5)).cStr 0 = some (strBytes "5") :=
  ⟨rfl, rfl, rfl, rfl⟩

/-- C1 (amended): the binary fast path covers exactly the three
specializations short, int and long: the stored bytes are the value's
two's-complement pattern byte-swapped to network order, format() is 1 and
size() is the type's width in bytes.  Every other integer specialization —
signed char, unsigned char, unsigned short, unsigned, unsigned long,
unsigned long long, and also long long although it too is signed and 64 bits
wide — is encoded as a decimal-text string with format() 0. -/
theorem C1_integer_dispatch (pf : String → Nat → List Nat) :
    (∀ v : Int,
      (encode pf (.vshort v)).cStr 0 = some (beBytes 2 (toU 16 v)) ∧
      (encode pf (.vshort v)).size 0 = 2 ∧ (encode pf (.vshort v)).format 0 = 1) ∧
    (∀ v : Int,
      (encode pf (.vint v)).cStr 0 = some (beBytes 4 (toU 32 v)) ∧
      (encode pf (.vint v)).size 0 = 4 ∧ (encode pf (.vint v)).format 0 = 1) ∧
    (∀ v : Int,
      (encode pf (.vlong v)).cStr 0 = some (beBytes 8 (toU 64 v)) ∧
      (encode pf (.vlong v)).size 0 = 8 ∧ (encode pf (.vlong v)).format 0 = 1) ∧
    (∀ v : Int, (encode pf (.vschar v)).cStr 0 = some (decimalText v) ∧
      (encode pf (.vschar v)).format 0 = 0) ∧
    (∀ v : Nat, (encode pf (.vuchar v)).cStr 0 = some (decimalTextN v) ∧
      (encode pf (.vuchar v)).format 0 = 0) ∧
    (∀ v : Nat, (encode pf (.vushort v)).cStr 0 = some (decimalTextN v) ∧
      (encode pf (.vushort v)).format 0 = 0) ∧
    (∀ v : Nat, (encode pf (.vuint v)).cStr 0 = some (decimalTextN v) ∧
      (encode pf (.vuint v)).format 0 = 0) ∧
    (∀ v : Nat, (encode pf (.vulong v)).cStr 0 = some (decimalTextN v) ∧
      (encode pf (.vulong v)).format 0 = 0) ∧
    (∀ v : Int, (encode pf (.vlonglong v)).cStr 0 = some (decimalText v) ∧
      (encode pf (.vlonglong v)).format 0 = 0) ∧
    (∀ v : Nat, (encode pf (.vulonglong v)).cStr 0 = some (decimalTextN v) ∧
      (encode pf (.vulonglong v)).format 0 = 0) ∧
    (∀ t : PType, binaryTy t = true ↔ (t = .tshort ∨ t = .tint ∨ t = .tlong)) ∧
    (∀ t : PType, binaryTy t = true →
      isSignedIntTy t = true ∧ (widthBits t : Int) = 8 * tySize t 0) := by
  refine ⟨?_, ?_, ?_, fun v => ⟨rfl, rfl⟩, fun v => ⟨rfl, rfl⟩, fun v => ⟨rfl, rfl⟩,
    fun v => ⟨rfl, rfl⟩, fun v => ⟨rfl, rfl⟩, fun v => ⟨rfl, rfl⟩, fun v => ⟨rfl, rfl⟩,
    ?_, ?_⟩
  · intro v
    have h := toU_lt 16 v
    norm_num at h
    exact ⟨by rw [show (encode pf (.vshort v)).cStr 0
        = some (leBytes 2 (bswap16 (toU 16 v))) from rfl, leBytes_bswap16 _ h], rfl, rfl⟩
  · intro v
    have h := toU_lt 32 v
    norm_num at h
    exact ⟨by rw [show (encode pf (.vint v)).cStr 0
        = some (leBytes 4 (bswap32 (toU 32 v))) from rfl, leBytes_bswap32 _ h], rfl, rfl⟩
  · intro v
    have h := toU_lt 64 v
    norm_num at h
    exact ⟨by rw [show (encode pf (.vlong v)).cStr 0
        = some (leBytes 8 (bswap64 (toU 64 v))) from rfl, leBytes_bswap64 _ h], rfl, rfl⟩
  · intro t
    cases t <;> simp [binaryTy]
  · intro t ht
    cases t <;> simp [binaryTy] at ht <;> exact ⟨rfl, by norm_num [tySize, widthBits]⟩

/-- C5: long double is text-encoded through internal::printf_helper: NaN
yields "NAN", positive infinity "INF", negative infinity "-INF", and a finite
value the opaque formatter's output for the 21-significant-digit general
float pattern %.21Lg; the column is text format 0 (and size 0) in all cases. -/
theorem C5_long_double (pf : String → Nat → List Nat) (k : Nat) (v : LongDouble) :
    (encode pf (.vlongdouble .nan)).cStr 0 = some (strBytes "NAN") ∧
    (encode pf (.vlongdouble .posInf)).cStr 0 = some (strBytes "INF") ∧
    (encode pf (.vlongdouble .negInf)).cStr 0 = some (strBytes "-INF") ∧
    (encode pf (.vlongdouble (.finite k))).cStr 0 = some (pf "%.21Lg" k) ∧
    (encode pf (.vlongdouble v)).format 0 = 0 ∧
    (encode pf (.vlongdouble v)).size 0 = 0 := by
  refine ⟨rfl, rfl, rfl, rfl, ?_, ?_⟩ <;> cases v <;> rfl

/-- C6: parameter_traits<float> is exactly bit-reinterpretation composed with
the int binary encoder, and parameter_traits<double> with the long binary
encoder: the encodings are equal as whole objects, and consequently the
emitted bytes are the original bit pattern's network-order bytes with binary
format and the integer type's size. -/
theorem C6_float_bitcast (pf : String → Nat → List Nat) (bits : Nat) :
    encode pf (.vfloat bits) = encode pf (.vint (toI 32 bits)) ∧
    encode pf (.vdouble bits) = encode pf (.vlong (toI 64 bits)) ∧
    (bits < 4294967296 →
      (encode pf (.vfloat bits)).cStr 0 = some (beBytes 4 bits) ∧
      (encode pf (.vfloat bits)).size 0 = 4 ∧ (encode pf (.vfloat bits)).format 0 = 1) ∧
    (bits < 18446744073709551616 →
      (encode pf (.vdouble bits)).cStr 0 = some (beBytes 8 bits) ∧
      (encode pf (.vdouble bits)).size 0 = 8 ∧
      (encode pf (.vdouble bits)).format 0 = 1) := by
  refine ⟨rfl, rfl, ?_, ?_⟩
  · intro h
    have h32 : bits < 2 ^ 32 := by norm_num; exact h
    refine ⟨?_, rfl, rfl⟩
    rw [show (encode pf (.vfloat bits)).cStr 0
        = some (leBytes 4 (bswap32 (toU 32 (toI 32 bits)))) from rfl,
      toU_toI 32 bits h32, leBytes_bswap32 bits h]
  · intro h
    have h64 : bits < 2 ^ 64 := by norm_num; exact h
    refine ⟨?_, rfl, rfl⟩
    rw [show (encode pf (.vdouble bits)).cStr 0
        = some (leBytes 8 (bswap64 (toU 64 (toI 64 bits)))) from rfl,
      toU_toI 64 bits h64, leBytes_bswap64 bits h]

/-- C6 witness: the refinement instantiated at the concrete bit pattern 3,
with both side conditions discharged. -/
theorem C6_float_bitcast_witness :
    (encode pf0 (.vfloat 3)).cStr 0 = some (beBytes 4 3) ∧
    (encode pf0 (.vdouble 3)).cStr 0 = some (beBytes 8 3) :=
  ⟨((C6_float_bitcast pf0 3).2.2.1 (by norm_num)).1,
   ((C6_float_bitcast pf0 3).2.2.2 (by norm_num)).1⟩

/-- C7: for each binary-capable scalar (short, int, long) the construction
stores the byte-swap of the value's two's-complement pattern, and the
byte-swap is an involution on patterns of the type's width: applying it to
the stored network-order value reproduces the original pattern bit-for-bit. -/
theorem C7_byteswap_involution (pf : String → Nat → List Nat) (v : Int) :
    ((encode pf (.vshort v)).cStr 0 = some (leBytes 2 (bswap16 (toU 16 v))) ∧
      bswap16 (bswap16 (toU 16 v)) = toU 16 v) ∧
    ((encode pf (.vint v)).cStr 0 = some (leBytes 4 (bswap32 (toU 32 v))) ∧
      bswap32 (bswap32 (toU 32 v)) = toU 32 v) ∧
    ((encode pf (.vlong v)).cStr 0 = some (leBytes 8 (bswap64 (toU 64 v))) ∧
      bswap64 (bswap64 (toU 64 v)) = toU 64 v) := by
  have h16 := toU_lt 16 v
  have h32 := toU_lt 32 v
  have h64 := toU_lt 64 v
  norm_num at h16 h32 h64
  exact ⟨⟨rfl, bswap16_invol _ h16⟩, ⟨rfl, bswap32_invol _ h32⟩,
    ⟨rfl, bswap64_invol _ h64⟩⟩

/-- C2: tuple flattening: columns is the pack fold of the element encodings'
column counts; every global index below the total is routed by the exact
prefix-sum partition to exactly one element (no gaps: routing succeeds; no
overlaps: the outer/inner decomposition is unique), and the three observers
delegate to that element at the local index; the nested sequence
(int, (bool, bool)) has 3 columns with index 0 observing the int's
network-order bytes and indices 1 and 2 the two booleans' texts in order. -/
theorem C2_tuple_partition (pf : String → Nat → List Nat) (vs : List PValue) (I : Nat)
    (hI : I < (encode pf (.vtuple vs)).columns) :
    (encode pf (.vtuple vs)).columns
        = ((encodeList pf vs).map (fun e => e.columns)).sum ∧
    (∃ o inn,
      genRoute ((encodeList pf vs).map (fun e => e.columns)) I = some (o, inn) ∧
      o < vs.length ∧
      inn < (encode pf (vs.getD o .vnull)).columns ∧
      I = (((encodeList pf vs).map (fun e => e.columns)).take o).sum + inn ∧
      (∀ o' inn', o' < vs.length →
        inn' < (encode pf (vs.getD o' .vnull)).columns →
        I = (((encodeList pf vs).map (fun e => e.columns)).take o').sum + inn' →
        o' = o ∧ inn' = inn) ∧
      (encode pf (.vtuple vs)).cStr I = (encode pf (vs.getD o .vnull)).cStr inn ∧
      (encode pf (.vtuple vs)).size I = (encode pf (vs.getD o .vnull)).size inn ∧
      (encode pf (.vtuple vs)).format I = (encode pf (vs.getD o .vnull)).format inn) ∧
    (encode pf (.vtuple [.vint 7, .vtuple [.vbool true, .vbool false]])).columns = 3 ∧
    (encode pf (.vtuple [.vint 7, .vtuple [.vbool true, .vbool false]])).cStr 0
      = some [0, 0, 0, 7] ∧
    (encode pf (.vtuple [.vint 7, .vtuple [.vbool true, .vbool false]])).cStr 1
      = some (strBytes "TRUE") ∧
    (encode pf (.vtuple [.vint 7, .vtuple [.vbool true, .vbool false]])).cStr 2
      = some (strBytes "FALSE") := by
  have hsum : (encode pf (.vtuple vs)).columns
      = ((encodeList pf vs).map (fun e => e.columns)).sum := by
    rw [show (encode pf (.vtuple vs)).columns = tyColumnsList (tyOfList vs) from rfl,
        tyColumnsList_eq_sum, ← cols_eq pf vs]
  have hlen : ((encodeList pf vs).map (fun e => e.columns)).length = vs.length := by
    rw [List.length_map, encodeList_eq_map, List.length_map]
  refine ⟨hsum, ?_, rfl, rfl, rfl, rfl⟩
  obtain ⟨o, inn, hroute⟩ := genRoute_isSome _ I (hsum ▸ hI)
  obtain ⟨ho, hinn, hdec⟩ := genRoute_bounds _ I o inn hroute
  have ho' : o < vs.length := hlen ▸ ho
  have hinn' : inn < (encode pf (vs.getD o .vnull)).columns := by
    rw [← cols_getD pf vs o ho']; exact hinn
  refine ⟨o, inn, hroute, ho', hinn', hdec, ?_, ?_, ?_, ?_⟩
  · intro o' inn' ho2 hinn2 hdec2
    have hro2 : genRoute ((encodeList pf vs).map (fun e => e.columns)) I
        = some (o', inn') := by
      rw [hdec2]
      exact genRoute_of_decomp _ o' inn' (hlen ▸ ho2)
        (by rw [cols_getD pf vs o' ho2]; exact hinn2)
    rw [hroute] at hro2
    have hpair : (o, inn) = (o', inn') := Option.some.inj hro2
    exact ⟨(congrArg Prod.fst hpair).symm, (congrArg Prod.snd hpair).symm⟩
  · rw [show (encode pf (.vtuple vs)).cStr I
        = match genRoute ((encodeList pf vs).map (fun e => e.columns)) I with
          | some p => ((encodeList pf vs).getD p.1 nullEncoding).cStr p.2
          | none => none from rfl,
      hroute]
    show ((encodeList pf vs).getD o nullEncoding).cStr inn = _
    rw [encodeList_getD]
  · rw [show (encode pf (.vtuple vs)).size I = tySizeList (tyOfList vs) I from rfl,
      tySizeList_genRoute, ← cols_eq pf vs, hroute]
    show tySize ((tyOfList vs).getD o .tnull) inn = _
    rw [tyOfList_getD]
    exact (encode_size pf _ inn).symm
  · rw [show (encode pf (.vtuple vs)).format I = tyFormatList (tyOfList vs) I from rfl,
      tyFormatList_genRoute, ← cols_eq pf vs, hroute]
    show tyFormat ((tyOfList vs).getD o .tnull) inn = _
    rw [tyOfList_getD]
    exact (encode_format pf _ inn).symm

/-- C2 witness: the partition theorem instantiated at the nested sequence
(int, (bool, bool)) and global index 1. -/
theorem C2_tuple_partition_witness :
    1 < (encode pf0 (.vtuple [.vint 7, .vtuple [.vbool true, .vbool false]])).columns ∧
    (encode pf0 (.vtuple [.vint 7, .vtuple [.vbool true, .vbool false]])).columns
      = ((encodeList pf0 [.vint 7, .vtuple [.vbool true, .vbool false]]).map
          (fun e => e.columns)).sum :=
  ⟨by decide,
   (C2_tuple_partition pf0 [.vint 7, .vtuple [.vbool true, .vbool false]] 1 (by decide)).1⟩

/-- C3: std::optional of a single-column type: the empty optional has one
column with a null data pointer while size(0) and format(0) still report the
wrapped type's static metadata; a present optional delegates all three
observers to the parameter_traits object of the contained value. -/
theorem C3_optional (pf : String → Nat → List Nat) (t : PType) (x : PValue)
    (_hcols : tyColumns t = 1) (hty : x.ty = t) :
    (encode pf (.vopt t none)).columns = 1 ∧
    (encode pf (.vopt t none)).cStr 0 = none ∧
    (encode pf (.vopt t none)).size 0 = tySize t 0 ∧
    (encode pf (.vopt t none)).format 0 = tyFormat t 0 ∧
    (encode pf (.vopt t (some x))).columns = 1 ∧
    (encode pf (.vopt t (some x))).cStr 0 = (encode pf x).cStr 0 ∧
    (encode pf (.vopt t (some x))).size 0 = (encode pf x).size 0 ∧
    (encode pf (.vopt t (some x))).format 0 = (encode pf x).format 0 := by
  refine ⟨rfl, rfl, rfl, rfl, rfl, rfl, ?_, ?_⟩
  · rw [encode_size pf x 0, hty]; rfl
  · rw [encode_format pf x 0, hty]; rfl

/-- C3 witness: optional-of-int, empty and holding 5. -/
theorem C3_optional_witness :
    tyColumns .tint = 1 ∧ (PValue.vint 5).ty = .tint ∧
    ((encode pf0 (.vopt .tint none)).columns = 1 ∧
     (encode pf0 (.vopt .tint none)).cStr 0 = none ∧
     (encode pf0 (.vopt .tint none)).size 0 = tySize .tint 0 ∧
     (encode pf0 (.vopt .tint none)).format 0 = tyFormat .tint 0 ∧
     (encode pf0 (.vopt .tint (some (.vint 5)))).columns = 1 ∧
     (encode pf0 (.vopt .tint (some (.vint 5)))).cStr 0 = (encode pf0 (.vint 5)).cStr 0 ∧
     (encode pf0 (.vopt .tint (some (.vint 5)))).size 0 = (encode pf0 (.vint 5)).size 0 ∧
     (encode pf0 (.vopt .tint (some (.vint 5)))).format 0
       = (encode pf0 (.vint 5)).format 0) :=
  ⟨rfl, rfl, C3_optional pf0 .tint (.vint 5) rfl rfl⟩

/-- parameter_traits<T, void_t<to_taopq_param>>: the trait for a type with a
discoverable conversion function inherits the converted value's trait,
constructing it from the conversion's result. -/
def encodeHook {α : Type} (toParam : α → PValue) (pf : String → Nat → List Nat)
    (a : α) : Encoding :=
  encode pf (toParam a)

/-- C4: a hook type's encoding equals the encoding of the converted
intermediate value: columns and all observers at every index are identical;
in particular a hook returning an empty optional-of-int encodes identically
to directly encoding an empty optional-of-int (null pointer, and int's
static size 4 and binary format 1). -/
theorem C4_hook_refinement {α : Type} (toParam : α → PValue)
    (pf : String → Nat → List Nat) (a : α) (i : Nat) :
    (encodeHook toParam pf a).columns = (encode pf (toParam a)).columns ∧
    (encodeHook toParam pf a).cStr i = (encode pf (toParam a)).cStr i ∧
    (encodeHook toParam pf a).size i = (encode pf (toParam a)).size i ∧
    (encodeHook toParam pf a).format i = (encode pf (toParam a)).format i ∧
    encodeHook (fun _ : Unit => .vopt .tint none) pf () = encode pf (.vopt .tint none) ∧
    (encodeHook (fun _ : Unit => .vopt .tint none) pf ()).columns = 1 ∧
    (encodeHook (fun _ : Unit => .vopt .tint none) pf ()).cStr 0 = none ∧
    (encodeHook (fun _ : Unit => .vopt .tint none) pf ()).size 0 = 4 ∧
    (encodeHook (fun _ : Unit => .vopt .tint none) pf ()).format 0 = 1 :=
  ⟨rfl, rfl, rfl, rfl, rfl, rfl, rfl, rfl, rfl⟩

/-- C8: column-index bound checking is static: for an index at or beyond the
column count no element of the prefix-sum partition owns it and the routing
is vacuous — exactly the situation the static_assert in every observer
rejects at compile time; under the precondition that the index is within
[0, columns) the routing is total and exact (in-bounds outer element,
in-bounds local index, index = prefix sum + local offset), never a
runtime-checked or clamped access. -/
theorem C8_static_bounds (pf : String → Nat → List Nat) (vs : List PValue) (I : Nat) :
    ((encode pf (.vtuple vs)).columns ≤ I →
      genRoute ((encodeList pf vs).map (fun e => e.columns)) I = none) ∧
    (I < (encode pf (.vtuple vs)).columns →
      ∃ o inn,
        genRoute ((encodeList pf vs).map (fun e => e.columns)) I = some (o, inn) ∧
        o < vs.length ∧
        inn < (encode pf (vs.getD o .vnull)).columns ∧
        I = (((encodeList pf vs).map (fun e => e.columns)).take o).sum + inn) := by
  have hsum : (encode pf (.vtuple vs)).columns
      = ((encodeList pf vs).map (fun e => e.columns)).sum := by
    rw [show (encode pf (.vtuple vs)).columns = tyColumnsList (tyOfList vs) from rfl,
        tyColumnsList_eq_sum, ← cols_eq pf vs]
  have hlen : ((encodeList pf vs).map (fun e => e.columns)).length = vs.length := by
    rw [List.length_map, encodeList_eq_map, List.length_map]
  constructor
  · intro h
    exact genRoute_none _ I (hsum ▸ h)
  · intro h
    obtain ⟨o, inn, hroute⟩ := genRoute_isSome _ I (hsum ▸ h)
    obtain ⟨ho, hinn, hdec⟩ := genRoute_bounds _ I o inn hroute
    exact ⟨o, inn, hroute, hlen ▸ ho,
      by rw [← cols_getD pf vs o (hlen ▸ ho)]; exact hinn, hdec⟩

/-- C8 witness: a one-element tuple of an int: index 1 is beyond the single
column and is rejected (no owning element); index 0 routes exactly. -/
theorem C8_static_bounds_witness :
    genRoute ((encodeList pf0 [.vint 7]).map (fun e => e.columns)) 1 = none ∧
    (∃ o inn,
      genRoute ((encodeList pf0 [.vint 7]).map (fun e => e.columns)) 0 = some (o, inn) ∧
      o < ([PValue.vint 7]).length ∧
      inn < (encode pf0 ([PValue.vint 7].getD o .vnull)).columns ∧
      0 = (((encodeList pf0 [.vint 7]).map (fun e => e.columns)).take o).sum + inn) :=
  ⟨(C8_static_bounds pf0 [.vint 7] 1).1 (by decide),
   (C8_static_bounds pf0 [.vint 7] 0).2 (by decide)⟩

/-- C9: size and format are determined by the static type alone: encodings
built from any two values of the same type — even under different opaque
formatters — report identical size and format at every column index. -/
theorem C9_type_determined (pf pg : String → Nat → List Nat) (x y : PValue)
    (h : x.ty = y.ty) (i : Nat) :
    (encode pf x).size i = (encode pg y).size i ∧
    (encode pf x).format i = (encode pg y).format i := by
  rw [encode_size, encode_format, encode_size, encode_format, h]
  exact ⟨rfl, rfl⟩

/-- C9 witness: two different int values. -/
theorem C9_type_determined_witness :
    (PValue.vint 1).ty = (PValue.vint 2).ty ∧
    ((encode pf0 (.vint 1)).size 0 = (encode pf0 (.vint 2)).size 0 ∧
     (encode pf0 (.vint 1)).format 0 = (encode pf0 (.vint 2)).format 0) :=
  ⟨rfl, C9_type_determined pf0 pf0 (.vint 1) (.vint 2) rfl 0⟩

/-- The namespace-scope default free function template to_taopq_param at the
end of the header, forwarding to the member function t.to_taopq_param(). -/
def defaultToParam {α : Type} (member : α → PValue) (a : α) : PValue := member a

/-- C10: a type with no built-in specialization and no user-supplied free
conversion but with a member to_taopq_param() is still encodable: the default
free function forwards to the member, and the type's encoding equals the
encoding of the member function's result. -/
theorem C10_member_hook {α : Type} (member : α → PValue)
    (pf : String → Nat → List Nat) (a : α) (i : Nat) :
    encodeHook (defaultToParam member) pf a = encode pf (member a) ∧
    (encodeHook (defaultToParam member) pf a).columns = (encode pf (member a)).columns ∧
    (encodeHook (defaultToParam member) pf a).cStr i = (encode pf (member a)).cStr i ∧
    (encodeHook (defaultToParam member) pf a).size i = (encode pf (member a)).size i ∧
    (encodeHook (defaultToParam member) pf a).format i = (encode pf (member a)).format i :=
  ⟨rfl, rfl, rfl, rfl, rfl⟩

end TaoPq
